import Mathlib

/- Verification development for the `datatypes` library: the cyclically
   indexable list (`CyclicList`) and the 2D geometry kit (`Point2D`,
   `Vector2D` in cartesian/polar encodings, `Segment2D`).  Python machine
   floats are modelled as exact real (or rational) arithmetic; a raised
   exception is modelled as `none` / an `Option`-level failure. -/

namespace CyclicList

/-- Python built-in list indexing `l[i]`: a negative index counts from the
end; `none` models an `IndexError`. -/
def pyGetIndex {α : Type} (l : List α) (i : ℤ) : Option α :=
  if 0 ≤ i then l[i.toNat]?
  else if 0 ≤ (l.length : ℤ) + i then l[((l.length : ℤ) + i).toNat]?
  else none

/-- Auxiliary for stepped subsampling: `c` counts the positions left to skip
before the next kept element. -/
def everyNthAux {α : Type} : List α → ℕ → ℕ → List α
  | [], _, _ => []
  | a :: as, k, 0 => a :: everyNthAux as k (k - 1)
  | _ :: as, k, c + 1 => everyNthAux as k c

/-- Python `l[::k]` for `k ≥ 1`: keeps the elements at indices 0, k, 2k, … -/
def everyNth {α : Type} (l : List α) (k : ℕ) : List α := everyNthAux l k 0

/-- Python stepped subsampling `l[::step]` (`none` step means step 1; a
negative step walks the list from the back; `some 0` raises `ValueError`,
modelled as `none`). -/
def pyStepSlice {α : Type} (l : List α) : Option ℤ → Option (List α)
  | none => some l
  | some k =>
    if 0 < k then some (everyNth l k.toNat)
    else if k < 0 then some (everyNth l.reverse (-k).toNat)
    else none

/-- `CyclicList.__getitem__` on an integer index (cyclic_list.py lines
72–74): a non-negative index on a non-empty list is reduced modulo the
length; every other case defers to plain list indexing.  `none` models an
`IndexError`. -/
def getitemInt {α : Type} (l : List α) (i : ℤ) : Option α :=
  if 0 ≤ i ∧ 0 < l.length then pyGetIndex l (i % (l.length : ℤ))
  else pyGetIndex l i

/-- `CyclicList.__getitem__` on a slice (cyclic_list.py lines 53–71).
`start?`, `stop?`, `step` are the slice's optional fields.  A `none` result
models a raised exception: `ZeroDivisionError` from `start / len(self)` when
the list is empty (reached whenever `start ≤ stop - 1`), or `ValueError`
from a zero step. -/
def getitemSlice {α : Type} (l : List α) (start? stop? step : Option ℤ) :
    Option (List α) :=
  let n : ℤ := (l.length : ℤ)
  let start := start?.getD 0
  let stop := stop?.getD n - 1
  if start > stop then some []
  else if l.length = 0 then none
  else
    let listForStart := start.fdiv n
    let listForStop := stop.fdiv n
    if listForStop = listForStart then
      pyStepSlice ((l.drop (start % n).toNat).take
          ((stop % n).toNat - (start % n).toNat)
        ++ (l[(stop % n).toNat]?).toList) step
    else
      let entireLists := max 0 (listForStop - listForStart - 1)
      pyStepSlice (l.drop (start % n).toNat
        ++ (List.replicate entireLists.toNat l).flatten
        ++ l.take (stop % n).toNat
        ++ (l[(stop % n).toNat]?).toList) step

end CyclicList

/-- C1: on a non-empty `CyclicList` of length `n`, a slice get whose `start`
and inclusive stop `stop - 1` fall in different laps (floor division by `n`)
returns the tail of the list from `start mod n` to the end, then one full
copy of the list per fully-spanned intermediate lap, then the head of the
list from position 0 through `(stop-1) mod n` inclusive, the whole
subsampled by `step` exactly as a normal slice-with-step. -/
theorem c1_getitemSlice_multilap {α : Type} (l : List α) (start stop : ℤ)
    (step : Option ℤ) (hne : l ≠ [])
    (hle : start ≤ stop - 1)
    (hlap : start.fdiv (l.length : ℤ) ≠ (stop - 1).fdiv (l.length : ℤ)) :
    CyclicList.getitemSlice l (some start) (some stop) step =
      CyclicList.pyStepSlice
        (l.drop ((start % (l.length : ℤ)).toNat)
          ++ (List.replicate ((stop - 1).fdiv (l.length : ℤ) -
                start.fdiv (l.length : ℤ) - 1).toNat l).flatten
          ++ l.take ((((stop - 1) % (l.length : ℤ)).toNat) + 1))
        step := by
  have hn : 0 < (l.length : ℤ) := by
    exact_mod_cast List.length_pos.mpr hne
  have hmono : start.fdiv (l.length : ℤ) ≤ (stop - 1).fdiv (l.length : ℤ) := by
    rw [Int.fdiv_eq_ediv _ hn.le, Int.fdiv_eq_ediv _ hn.le]
    exact Int.ediv_le_ediv hn hle
  simp only [CyclicList.getitemSlice, Option.getD_some]
  rw [if_neg (by omega), if_neg (by omega), if_neg (Ne.symm hlap),
    max_eq_right (by omega), List.take_succ]
  simp [List.append_assoc]

/-- Witness for C1 at the spec's own example: `get(slice(2,23))` on the
10-element list `[0..9]` is the 21-element list
`[2..9] ++ [0..9] ++ [0,1,2]`. -/
theorem c1_witness :
    CyclicList.getitemSlice ([0, 1, 2, 3, 4, 5, 6, 7, 8, 9] : List ℤ)
        (some 2) (some 23) none =
      some ([2, 3, 4, 5, 6, 7, 8, 9] ++ [0, 1, 2, 3, 4, 5, 6, 7, 8, 9]
        ++ [0, 1, 2]) := by
  have h := c1_getitemSlice_multilap ([0, 1, 2, 3, 4, 5, 6, 7, 8, 9] : List ℤ)
    2 23 none (by decide) (by decide) (by decide)
  rw [h]
  decide

/-- C3: the claim that slice get never crashes on the empty `CyclicList` is
violated by the code: `get(slice(2,23))` on an empty list reaches
`math.floor(start / len(self))` and raises `ZeroDivisionError` (modelled as
`none`); only a slice whose range is empty (e.g. the default full slice)
returns before the division. -/
theorem c3_empty_slice_crash :
    CyclicList.getitemSlice ([] : List ℤ) (some 2) (some 23) none = none ∧
    CyclicList.getitemSlice ([] : List ℤ) none none none = some [] := by
  decide

/-- C4: on a non-empty `CyclicList` of length `n`, single-index get with
`i ≥ 0` returns the element at position `i mod n` (so `get i = get (i mod
n)` and never fails); `-n ≤ i < 0` behaves as conventional negative
indexing (the element at `n + i`); `i < -n` is an out-of-range failure. -/
theorem c4_getitemInt_spec {α : Type} (l : List α) (hne : l ≠ []) (i : ℤ) :
    (0 ≤ i →
      CyclicList.getitemInt l i = l[(i % (l.length : ℤ)).toNat]? ∧
      CyclicList.getitemInt l i =
        CyclicList.getitemInt l (i % (l.length : ℤ)) ∧
      (CyclicList.getitemInt l i).isSome) ∧
    (-(l.length : ℤ) ≤ i → i < 0 →
      CyclicList.getitemInt l i = l[((l.length : ℤ) + i).toNat]?) ∧
    (i < -(l.length : ℤ) → CyclicList.getitemInt l i = none) := by
  have hn : 0 < (l.length : ℤ) := by
    exact_mod_cast List.length_pos.mpr hne
  have hnn : 0 < l.length := List.length_pos.mpr hne
  refine ⟨fun hi => ?_, fun h1 h2 => ?_, fun h => ?_⟩
  · have hmod : 0 ≤ i % (l.length : ℤ) := Int.emod_nonneg i (by omega)
    have hlt : i % (l.length : ℤ) < (l.length : ℤ) := Int.emod_lt_of_pos i hn
    have hidem : (i % (l.length : ℤ)) % (l.length : ℤ) = i % (l.length : ℤ) :=
      Int.emod_emod_of_dvd i dvd_rfl
    have hsome : l[(i % (l.length : ℤ)).toNat]?.isSome := by
      rw [List.getElem?_eq_getElem (by omega : (i % (l.length : ℤ)).toNat < l.length)]
      rfl
    refine ⟨?_, ?_, ?_⟩
    · simp [CyclicList.getitemInt, CyclicList.pyGetIndex, hi, hnn, hmod]
    · simp [CyclicList.getitemInt, CyclicList.pyGetIndex, hi, hnn, hmod, hidem]
    · simp only [CyclicList.getitemInt, if_pos (And.intro hi hnn),
        CyclicList.pyGetIndex, if_pos hmod]
      exact hsome
  · have : ¬ (0 ≤ i ∧ 0 < l.length) := by omega
    have h4 : 0 ≤ (l.length : ℤ) + i := by omega
    simp [CyclicList.getitemInt, CyclicList.pyGetIndex, this, h2.not_le, h4]
  · have : ¬ (0 ≤ i ∧ 0 < l.length) := by omega
    have h2 : ¬ (0 ≤ i) := by omega
    have h3 : ¬ (0 ≤ (l.length : ℤ) + i) := by omega
    simp [CyclicList.getitemInt, CyclicList.pyGetIndex, this, h2, h3]

/-- Witness for C4 on `[10, 20, 30]` at `i = 7`: `get 7 = get (7 mod 3)`
and the access succeeds with the element at position 1. -/
theorem c4_witness :
    CyclicList.getitemInt ([10, 20, 30] : List ℤ) 7 =
      CyclicList.getitemInt ([10, 20, 30] : List ℤ) ((7 : ℤ) % (3 : ℤ)) ∧
    CyclicList.getitemInt ([10, 20, 30] : List ℤ) 7 = some 20 := by
  have h := (c4_getitemInt_spec ([10, 20, 30] : List ℤ) (by decide) 7).1
    (by decide)
  exact ⟨h.2.1, by decide⟩

/- ---------------------------------------------------------------------
   2D geometry kit.  `Point2D` and `Segment2D` only use field arithmetic
   and order, so they are embedded over an arbitrary linear ordered field
   (Python floats modelled as exact arithmetic); concrete instances use ℚ.
   --------------------------------------------------------------------- -/

/-- `Point2D`: a 2-dimensional point in cartesian coordinates. -/
structure Point2D (K : Type) where
  x : K
  y : K
deriving DecidableEq

/-- `Segment2D`: a closed line segment joining two points, `a` the origin
endpoint and `b` the destination endpoint. -/
structure Segment2D (K : Type) where
  a : Point2D K
  b : Point2D K
deriving DecidableEq

/-- `Point2D.__sub__` on another point: the cartesian vector from `other` to
`self`, kept as an (x, y) component pair (`(self.b - self.a).to_cartesian()`
in the source is the identity on this cartesian vector). -/
def pointSub {K : Type} [LinearOrderedField K] (p q : Point2D K) : K × K :=
  (p.x - q.x, p.y - q.y)

/-- `Vector2DCartesian.__mul__` by a scalar (vector.py lines 423–428): a
zero scalar returns `Vector2D(x=0, y=0)`, otherwise both components are
scaled. -/
def cartMulScalar {K : Type} [LinearOrderedField K] (v : K × K) (u : K) :
    K × K :=
  if u = 0 then (0, 0) else (v.1 * u, v.2 * u)

/-- `Point2D.__add__` with a cartesian vector: the displaced point. -/
def pointAddVec {K : Type} [LinearOrderedField K] (p : Point2D K)
    (v : K × K) : Point2D K :=
  ⟨p.x + v.1, p.y + v.2⟩

/-- `Segment2D.intersection` (segment.py lines 36–59).  The outer `Option`
models an uncaught exception: `none` is the `ZeroDivisionError` raised by
`t = (u * v2.x + other.a.x - self.a.x) / v1.x` when `self`'s direction has
`v1.x = 0` and the determinant is nonzero.  The inner `Option` is the
Python return value (`None` for no intersection). -/
def Segment2D.intersection {K : Type} [LinearOrderedField K]
    (s other : Segment2D K) : Option (Option (Point2D K)) :=
  let v1 := pointSub s.b s.a
  let v2 := pointSub other.b other.a
  let denom := v1.2 * v2.1 - v1.1 * v2.2
  if denom = 0 then some none
  else
    let numer := v1.1 * (other.a.y - s.a.y) - v1.2 * (other.a.x - s.a.x)
    let u := numer / denom
    if v1.1 = 0 then none
    else
      let t := (u * v2.1 + other.a.x - s.a.x) / v1.1
      if 0 ≤ u ∧ u ≤ 1 ∧ 0 ≤ t ∧ t ≤ 1 then
        some (some (pointAddVec other.a (cartMulScalar v2 u)))
      else some none

/-- C2 fails on the code: the claim says that whenever the determinant is
nonzero the result is the intersection point iff both parameters are in
[0,1], but `t` is computed by dividing by `v1.x`, so a vertical receiver
segment raises `ZeroDivisionError`.  First conjunct: the spec's own example
with the segments swapped, `Segment((2,0),(2,3)).intersection(
Segment((0,0),(3,3)))`, crashes (here `u = t = 2/3 ∈ [0,1]`, so the claim
demands `Point(2,2)`).  Second conjunct: in the documented direction the
code does return `Point(2,2)`. -/
theorem c2_intersection_vertical_crash :
    Segment2D.intersection (K := ℚ) ⟨⟨2, 0⟩, ⟨2, 3⟩⟩ ⟨⟨0, 0⟩, ⟨3, 3⟩⟩ =
      none ∧
    Segment2D.intersection (K := ℚ) ⟨⟨0, 0⟩, ⟨3, 3⟩⟩ ⟨⟨2, 0⟩, ⟨2, 3⟩⟩ =
      some (some ⟨2, 2⟩) := by
  constructor
  · norm_num [Segment2D.intersection, pointSub, cartMulScalar, pointAddVec]
  · norm_num [Segment2D.intersection, pointSub, cartMulScalar, pointAddVec]

/- ---------------------------------------------------------------------
   Vector2D: a planar vector under a cartesian or polar encoding
   (vector.py).  Python floats and numpy trigonometry are modelled as
   exact real arithmetic; `np.arctan2 y x` is the argument of the complex
   number `x + y*i`.
   --------------------------------------------------------------------- -/

noncomputable section

/-- `normalize_t` (vector.py line 9): Python `t % tau` on reals, i.e. `t`
reduced into `[0, 2π)` by subtracting `2π·⌊t/2π⌋`. -/
def normalize_t (t : ℝ) : ℝ := t - 2 * Real.pi * ⌊t / (2 * Real.pi)⌋

/-- `np.arctan2 y x`, the angle of the point `(x, y)` in `(-π, π]`. -/
def arctan2 (y x : ℝ) : ℝ := Complex.arg ⟨x, y⟩

/-- The two encodings of `Vector2D`: `cart` is `Vector2DCartesian`, `polar`
is `Vector2DPolar` (raw stored fields). -/
inductive Vector2D where
  | cart (x y : ℝ)
  | polar (r t : ℝ)

/-- `Vector2DPolar.__init__` (vector.py lines 464–470): asserts `r ≥ 0`
(`none` models the failed assertion) and stores the normalized angle, with
`t` forced to 0 whenever `r = 0`. -/
def mkPolar (r t : ℝ) : Option Vector2D :=
  if 0 ≤ r then
    some (Vector2D.polar r (if r ≠ 0 then normalize_t t else 0))
  else none

namespace Vector2D

/-- `length`: euclidean norm of a cartesian vector, the stored `r` of a
polar one. -/
def length : Vector2D → ℝ
  | cart x y => Real.sqrt (x * x + y * y)
  | polar r _ => r

/-- `to_cartesian`: the identity on a cartesian vector (returns self), the
trigonometric conversion on a polar one. -/
def to_cartesian : Vector2D → Vector2D
  | cart x y => cart x y
  | polar r t => cart (r * Real.cos t) (r * Real.sin t)

/-- `to_polar`: `Vector2DPolar(self.length(), arctan2(y, x))` on a
cartesian vector, the identity (self) on a polar one. -/
def to_polar : Vector2D → Option Vector2D
  | cart x y => mkPolar (length (cart x y)) (arctan2 y x)
  | polar r t => some (polar r t)

/-- `__neg__`: a cartesian vector negates both components; a polar one
keeps `r` and adds π to the angle (normalized, then re-normalized by the
constructor). -/
def neg : Vector2D → Option Vector2D
  | cart x y => some (cart (-x) (-y))
  | polar r t => mkPolar r (normalize_t (t + Real.pi))

/-- `__add__` on two vectors: two polar vectors sharing the angle add
magnitudes in polar form; every other pair is combined component-wise after
conversion to cartesian. -/
def add : Vector2D → Vector2D → Option Vector2D
  | cart x1 y1, cart x2 y2 => some (cart (x1 + x2) (y1 + y2))
  | cart x1 y1, polar r2 t2 =>
      some (cart (x1 + r2 * Real.cos t2) (y1 + r2 * Real.sin t2))
  | polar r1 t1, polar r2 t2 =>
      if t1 = t2 then mkPolar (r1 + r2) t1
      else some (cart (r1 * Real.cos t1 + r2 * Real.cos t2)
        (r1 * Real.sin t1 + r2 * Real.sin t2))
  | polar r1 t1, cart x2 y2 =>
      some (cart (r1 * Real.cos t1 + x2) (r1 * Real.sin t1 + y2))

/-- `__sub__` on two vectors (vector.py lines 496–503 for the polar
receiver): two polar vectors sharing the angle subtract magnitudes in polar
form, flipping to the opposite angle when the operand is longer; every
other pair is combined component-wise after conversion to cartesian. -/
def sub : Vector2D → Vector2D → Option Vector2D
  | cart x1 y1, cart x2 y2 => some (cart (x1 - x2) (y1 - y2))
  | cart x1 y1, polar r2 t2 =>
      some (cart (x1 - r2 * Real.cos t2) (y1 - r2 * Real.sin t2))
  | polar r1 t1, polar r2 t2 =>
      if t1 = t2 then
        if r2 ≤ r1 then mkPolar (r1 - r2) t1
        else mkPolar (r2 - r1) (normalize_t (t1 + Real.pi))
      else some (cart (r1 * Real.cos t1 - r2 * Real.cos t2)
        (r1 * Real.sin t1 - r2 * Real.sin t2))
  | polar r1 t1, cart x2 y2 =>
      some (cart (r1 * Real.cos t1 - x2) (r1 * Real.sin t1 - y2))

/-- `__mul__` by a scalar (vector.py lines 423–428 and 505–510): a zero
scalar returns `Vector2D(x=0, y=0)` — a cartesian vector — for both
encodings; otherwise the cartesian form scales both components and the
polar form rebuilds `Vector2DPolar(r*k, t)`. -/
def mul (v : Vector2D) (k : ℝ) : Option Vector2D :=
  match v with
  | cart x y => if k = 0 then some (cart 0 0) else some (cart (x * k) (y * k))
  | polar r t => if k = 0 then some (cart 0 0) else mkPolar (r * k) t

/-- `__truediv__` by a scalar: division by zero raises
(`none`); otherwise mirrors `mul` without the zero special case. -/
def div (v : Vector2D) (k : ℝ) : Option Vector2D :=
  match v with
  | cart x y => if k = 0 then none else some (cart (x / k) (y / k))
  | polar r t => if k = 0 then none else mkPolar (r / k) t

/-- `unit`: a cartesian vector divides by its length unless it is zero (in
which case it returns itself); a polar vector returns
`Vector2DPolar(1, t)`. -/
def unit : Vector2D → Option Vector2D
  | cart x y =>
      if length (cart x y) ≠ 0 then div (cart x y) (length (cart x y))
      else some (cart x y)
  | polar _ t => mkPolar 1 t

/-- `rotate` (vector.py lines 444–453 and 528): the cartesian form
special-cases the normalized angle at 0, π/2, π and 3π/2 with closed-form
component swaps, otherwise converts to polar and rotates there; the polar
form adds the angle, normalized. -/
def rotate : Vector2D → ℝ → Option Vector2D
  | cart x y, angle =>
      if normalize_t angle = 0 then some (cart x y)
      else if normalize_t angle = Real.pi / 2 then some (cart (-y) x)
      else if normalize_t angle = Real.pi then some (cart (-x) (-y))
      else if normalize_t angle = 3 * Real.pi / 2 then some (cart y (-x))
      else
        match to_polar (cart x y) with
        | some (polar r t) => mkPolar r (normalize_t (t + angle))
        | res => res
  | polar r t, angle => mkPolar r (normalize_t (t + angle))

end Vector2D

/-- `Vector2D.__new__` (vector.py lines 186–194): requires at least one
complete pair among {x, y} and {r, t} (the assert; `none` models its
failure), dispatching to the cartesian constructor when the cartesian pair
is complete and otherwise to the polar constructor. -/
def vector_new (x y r t : Option ℝ) : Option Vector2D :=
  match x, y, r, t with
  | some x, some y, _, _ => some (Vector2D.cart x y)
  | _, _, some r, some t => mkPolar r t
  | _, _, _, _ => none

/-- The polar-encoding invariant of the spec: `r ≥ 0`, `t ∈ [0, 2π)`, and
`t = 0` whenever `r = 0`.  Trivial on cartesian vectors. -/
def VecInv : Vector2D → Prop
  | Vector2D.cart _ _ => True
  | Vector2D.polar r t => 0 ≤ r ∧ 0 ≤ t ∧ t < 2 * Real.pi ∧ (r = 0 → t = 0)

end

lemma two_pi_pos : (0 : ℝ) < 2 * Real.pi := by positivity

lemma normalize_t_bounds (t : ℝ) :
    0 ≤ normalize_t t ∧ normalize_t t < 2 * Real.pi := by
  have h2 : (0 : ℝ) < 2 * Real.pi := two_pi_pos
  have hfl : (⌊t / (2 * Real.pi)⌋ : ℝ) ≤ t / (2 * Real.pi) := Int.floor_le _
  have hfu : t / (2 * Real.pi) < ⌊t / (2 * Real.pi)⌋ + 1 :=
    Int.lt_floor_add_one _
  have ht : t = t / (2 * Real.pi) * (2 * Real.pi) := by field_simp
  unfold normalize_t
  constructor <;> nlinarith [hfl, hfu]

lemma normalize_t_eq_self {t : ℝ} (h0 : 0 ≤ t) (h1 : t < 2 * Real.pi) :
    normalize_t t = t := by
  have hfl : ⌊t / (2 * Real.pi)⌋ = 0 := by
    rw [Int.floor_eq_zero_iff]
    exact ⟨div_nonneg h0 two_pi_pos.le, by rwa [div_lt_one two_pi_pos]⟩
  simp [normalize_t, hfl]

lemma normalize_t_idem (t : ℝ) : normalize_t (normalize_t t) = normalize_t t :=
  normalize_t_eq_self (normalize_t_bounds t).1 (normalize_t_bounds t).2

lemma normalize_t_cos (t : ℝ) : Real.cos (normalize_t t) = Real.cos t := by
  have h := Real.cos_sub_int_mul_two_pi t ⌊t / (2 * Real.pi)⌋
  rw [show normalize_t t =
    t - (⌊t / (2 * Real.pi)⌋ : ℝ) * (2 * Real.pi) by unfold normalize_t; ring]
  exact h

lemma normalize_t_sin (t : ℝ) : Real.sin (normalize_t t) = Real.sin t := by
  have h := Real.sin_sub_int_mul_two_pi t ⌊t / (2 * Real.pi)⌋
  rw [show normalize_t t =
    t - (⌊t / (2 * Real.pi)⌋ : ℝ) * (2 * Real.pi) by unfold normalize_t; ring]
  exact h

lemma mkPolar_inv {r t : ℝ} {v : Vector2D} (h : mkPolar r t = some v) :
    VecInv v := by
  unfold mkPolar at h
  by_cases hr : 0 ≤ r
  · rw [if_pos hr] at h
    injection h with h2
    subst h2
    by_cases h0 : r = 0
    · subst h0
      rw [if_neg (show ¬((0 : ℝ) ≠ 0) by norm_num)]
      exact ⟨le_refl 0, le_refl 0, two_pi_pos, fun _ => rfl⟩
    · rw [if_pos h0]
      exact ⟨hr, (normalize_t_bounds t).1, (normalize_t_bounds t).2,
        fun hc => absurd hc h0⟩
  · rw [if_neg hr] at h
    exact absurd h (by simp)

lemma vecinvTo_polar {v w : Vector2D} (hv : VecInv v)
    (h : Vector2D.to_polar v = some w) : VecInv w := by
  cases v with
  | cart x y => exact mkPolar_inv h
  | polar r t =>
      simp only [Vector2D.to_polar, Option.some.injEq] at h
      subst h
      exact hv

lemma vecinvNeg {v w : Vector2D} (h : Vector2D.neg v = some w) : VecInv w := by
  cases v with
  | cart x y =>
      simp only [Vector2D.neg, Option.some.injEq] at h
      subst h
      simp [VecInv]
  | polar r t => exact mkPolar_inv h

lemma vecinvAdd {v w u : Vector2D} (h : Vector2D.add v w = some u) :
    VecInv u := by
  cases v with
  | cart x1 y1 =>
      cases w <;>
        (simp only [Vector2D.add, Option.some.injEq] at h; subst h;
          simp [VecInv])
  | polar r1 t1 =>
      cases w with
      | cart x2 y2 =>
          simp only [Vector2D.add, Option.some.injEq] at h
          subst h
          simp [VecInv]
      | polar r2 t2 =>
          simp only [Vector2D.add] at h
          split at h
          · exact mkPolar_inv h
          · simp only [Option.some.injEq] at h
            subst h
            simp [VecInv]

lemma vecinvSub {v w u : Vector2D} (h : Vector2D.sub v w = some u) :
    VecInv u := by
  cases v with
  | cart x1 y1 =>
      cases w <;>
        (simp only [Vector2D.sub, Option.some.injEq] at h; subst h;
          simp [VecInv])
  | polar r1 t1 =>
      cases w with
      | cart x2 y2 =>
          simp only [Vector2D.sub, Option.some.injEq] at h
          subst h
          simp [VecInv]
      | polar r2 t2 =>
          simp only [Vector2D.sub] at h
          split at h
          · split at h <;> exact mkPolar_inv h
          · simp only [Option.some.injEq] at h
            subst h
            simp [VecInv]

lemma vecinvMul {v : Vector2D} {k : ℝ} {w : Vector2D}
    (h : Vector2D.mul v k = some w) : VecInv w := by
  cases v with
  | cart x y =>
      simp only [Vector2D.mul] at h
      split at h <;>
        (simp only [Option.some.injEq] at h; subst h; simp [VecInv])
  | polar r t =>
      simp only [Vector2D.mul] at h
      split at h
      · simp only [Option.some.injEq] at h
        subst h
        simp [VecInv]
      · exact mkPolar_inv h

lemma vecinvDiv {v : Vector2D} {k : ℝ} {w : Vector2D}
    (h : Vector2D.div v k = some w) : VecInv w := by
  cases v with
  | cart x y =>
      simp only [Vector2D.div] at h
      split at h
      · exact absurd h (by simp)
      · simp only [Option.some.injEq] at h
        subst h
        simp [VecInv]
  | polar r t =>
      simp only [Vector2D.div] at h
      split at h
      · exact absurd h (by simp)
      · exact mkPolar_inv h

lemma vecinvUnit {v w : Vector2D} (h : Vector2D.unit v = some w) : VecInv w := by
  cases v with
  | cart x y =>
      simp only [Vector2D.unit] at h
      split at h
      · exact vecinvDiv h
      · simp only [Option.some.injEq] at h
        subst h
        simp [VecInv]
  | polar r t => exact mkPolar_inv h

lemma to_polar_cart_eq (x y : ℝ) :
    Vector2D.to_polar (Vector2D.cart x y) =
      some (Vector2D.polar (Real.sqrt (x * x + y * y))
        (if Real.sqrt (x * x + y * y) ≠ 0 then normalize_t (arctan2 y x)
         else 0)) := by
  simp [Vector2D.to_polar, Vector2D.length, mkPolar, Real.sqrt_nonneg]

lemma vecinvRotate {v : Vector2D} {a : ℝ} {w : Vector2D}
    (h : Vector2D.rotate v a = some w) : VecInv w := by
  cases v with
  | cart x y =>
      simp only [Vector2D.rotate] at h
      split at h
      · simp only [Option.some.injEq] at h; subst h; simp [VecInv]
      · split at h
        · simp only [Option.some.injEq] at h; subst h; simp [VecInv]
        · split at h
          · simp only [Option.some.injEq] at h; subst h; simp [VecInv]
          · split at h
            · simp only [Option.some.injEq] at h; subst h; simp [VecInv]
            · rw [to_polar_cart_eq] at h
              exact mkPolar_inv h
  | polar r t => exact mkPolar_inv h

/-- C6: the polar invariant — `r ≥ 0`, `t ∈ [0, 2π)`, and `t = 0` whenever
`r = 0` (so `Vector(r=0, t=anything).t == 0`) — is established by the
`Vector2DPolar` constructor and preserved by every operation that returns a
polar vector (`to_polar`, negation, addition, subtraction, scalar multiply
and divide, `unit`, `rotate`). -/
theorem c6_polar_invariant :
    (∀ (r t : ℝ) (v : Vector2D), mkPolar r t = some v → VecInv v) ∧
    (∀ t : ℝ, mkPolar 0 t = some (Vector2D.polar 0 0)) ∧
    (∀ v w : Vector2D, VecInv v → Vector2D.to_polar v = some w → VecInv w) ∧
    (∀ v w : Vector2D, Vector2D.neg v = some w → VecInv w) ∧
    (∀ v w u : Vector2D, Vector2D.add v w = some u → VecInv u) ∧
    (∀ v w u : Vector2D, Vector2D.sub v w = some u → VecInv u) ∧
    (∀ (v : Vector2D) (k : ℝ) (w : Vector2D),
      Vector2D.mul v k = some w → VecInv w) ∧
    (∀ (v : Vector2D) (k : ℝ) (w : Vector2D),
      Vector2D.div v k = some w → VecInv w) ∧
    (∀ v w : Vector2D, Vector2D.unit v = some w → VecInv w) ∧
    (∀ (v : Vector2D) (a : ℝ) (w : Vector2D),
      Vector2D.rotate v a = some w → VecInv w) := by
  refine ⟨fun r t v h => mkPolar_inv h, fun t => ?_,
    fun v w hv h => vecinvTo_polar hv h, fun v w h => vecinvNeg h,
    fun v w u h => vecinvAdd h, fun v w u h => vecinvSub h,
    fun v k w h => vecinvMul h, fun v k w h => vecinvDiv h,
    fun v w h => vecinvUnit h, fun v a w h => vecinvRotate h⟩
  simp [mkPolar]

/-- Witness for C6: constructing a polar vector with `r = 0` and input
angle 5 yields the canonical zero vector `(r=0, t=0)`, which satisfies the
invariant. -/
theorem c6_witness :
    mkPolar 0 5 = some (Vector2D.polar 0 0) ∧ VecInv (Vector2D.polar 0 0) := by
  have h := c6_polar_invariant
  exact ⟨h.2.1 5, h.1 0 5 (Vector2D.polar 0 0) (h.2.1 5)⟩

/-- C10: `to_cartesian` on a cartesian vector and `to_polar` on a polar
vector return self unchanged, and for every cartesian vector the
`to_polar`/`to_cartesian` round trip — `r = hypot(x,y)`, `t = atan2(y,x)`,
then `x = r·cos t`, `y = r·sin t` — is exact over real arithmetic. -/
theorem c10_roundtrip (x y r t : ℝ) :
    Vector2D.to_cartesian (Vector2D.cart x y) = Vector2D.cart x y ∧
    Vector2D.to_polar (Vector2D.polar r t) = some (Vector2D.polar r t) ∧
    (Vector2D.to_polar (Vector2D.cart x y)).map Vector2D.to_cartesian =
      some (Vector2D.cart x y) := by
  refine ⟨rfl, rfl, ?_⟩
  rw [to_polar_cart_eq]
  by_cases h0 : Real.sqrt (x * x + y * y) = 0
  · have hsum : x * x + y * y = 0 :=
      (Real.sqrt_eq_zero
        (add_nonneg (mul_self_nonneg x) (mul_self_nonneg y))).mp h0
    have hx : x = 0 := by nlinarith
    have hy : y = 0 := by nlinarith
    simp [h0, Vector2D.to_cartesian, hx, hy]
  · have hz : (⟨x, y⟩ : ℂ) ≠ 0 := by
      intro hzz
      rw [Complex.ext_iff] at hzz
      simp only [Complex.zero_re, Complex.zero_im] at hzz
      apply h0
      rw [show x = (0:ℝ) from hzz.1, show y = (0:ℝ) from hzz.2]
      simp
    have habs : Complex.abs ⟨x, y⟩ = Real.sqrt (x * x + y * y) := by
      rw [Complex.abs_apply, Complex.normSq_mk]
    have hcos := Complex.cos_arg hz
    have hsin := Complex.sin_arg (⟨x, y⟩ : ℂ)
    rw [habs] at hcos hsin
    simp only [if_pos h0, Option.map_some', Vector2D.to_cartesian,
      normalize_t_cos, normalize_t_sin, Option.some.injEq, arctan2,
      Vector2D.cart.injEq]
    rw [hcos, hsin]
    constructor <;> field_simp

/-- C7: cartesian `rotate(θ)` with `θ` normalized to exactly 0, π/2, π or
3π/2 returns the closed-form results `(x,y)`, `(-y,x)`, `(-x,-y)`,
`(y,-x)`; any other angle rotates via the polar encoding. -/
theorem c7_rotate_cases (x y θ : ℝ) :
    (normalize_t θ = 0 →
      Vector2D.rotate (Vector2D.cart x y) θ = some (Vector2D.cart x y)) ∧
    (normalize_t θ = Real.pi / 2 →
      Vector2D.rotate (Vector2D.cart x y) θ = some (Vector2D.cart (-y) x)) ∧
    (normalize_t θ = Real.pi →
      Vector2D.rotate (Vector2D.cart x y) θ =
        some (Vector2D.cart (-x) (-y))) ∧
    (normalize_t θ = 3 * Real.pi / 2 →
      Vector2D.rotate (Vector2D.cart x y) θ = some (Vector2D.cart y (-x))) ∧
    (normalize_t θ ≠ 0 → normalize_t θ ≠ Real.pi / 2 →
      normalize_t θ ≠ Real.pi → normalize_t θ ≠ 3 * Real.pi / 2 →
      Vector2D.rotate (Vector2D.cart x y) θ =
        (Vector2D.to_polar (Vector2D.cart x y)).bind
          (fun p => Vector2D.rotate p θ)) := by
  have hpi := Real.pi_pos
  refine ⟨fun h1 => ?_, fun h2 => ?_, fun h3 => ?_, fun h4 => ?_,
    fun h1 h2 h3 h4 => ?_⟩
  · simp [Vector2D.rotate, h1]
  · rw [Vector2D.rotate, if_neg (by rw [h2]; positivity), if_pos h2]
  · rw [Vector2D.rotate, if_neg (by rw [h3]; positivity),
      if_neg (by rw [h3]; intro hc; linarith), if_pos h3]
  · rw [Vector2D.rotate, if_neg (by rw [h4]; positivity),
      if_neg (by rw [h4]; intro hc; linarith),
      if_neg (by rw [h4]; intro hc; linarith), if_pos h4]
  · rw [Vector2D.rotate, if_neg h1, if_neg h2, if_neg h3, if_neg h4,
      to_polar_cart_eq]
    rfl

/-- Witness for C7 at the spec's example: `Vector(x=3, y=4).rotate(π/2)` is
exactly `Vector(x=-4, y=3)`. -/
theorem c7_witness :
    Vector2D.rotate (Vector2D.cart 3 4) (Real.pi / 2) =
      some (Vector2D.cart (-4) 3) := by
  have hn : normalize_t (Real.pi / 2) = Real.pi / 2 :=
    normalize_t_eq_self (by positivity) (by linarith [Real.pi_pos])
  exact (c7_rotate_cases 3 4 (Real.pi / 2)).2.1 hn

/-- Counterexample to C8: multiplying the cartesian vector `(2,3)` by
exactly 0 yields `Vector2D(x=0, y=0)` — a CARTESIAN-encoded zero, not the
polar encoding `(r=0, t=0)` the claim names; moreover multiplying the polar
vector `(r=1, t=0)` by the nonzero scalar `-1` does not scale the
magnitude but fails the constructor's `r ≥ 0` assertion. -/
theorem c8_counterexample :
    Vector2D.mul (Vector2D.cart 2 3) 0 = some (Vector2D.cart 0 0) ∧
    Vector2D.mul (Vector2D.cart 2 3) 0 ≠ some (Vector2D.polar 0 0) ∧
    Vector2D.mul (Vector2D.polar 1 0) (-1) = none := by
  refine ⟨by simp [Vector2D.mul], by simp [Vector2D.mul], ?_⟩
  rw [show Vector2D.mul (Vector2D.polar 1 0) (-1) =
      mkPolar (1 * (-1)) 0 by simp [Vector2D.mul]]
  rw [mkPolar, if_neg (by norm_num)]

/-- C8 amended: multiplying a cartesian vector by a nonzero real scales
both components in cartesian encoding; multiplying a polar vector
(satisfying the invariant) by a positive real scales only the magnitude,
keeping the angle, while a negative scalar fails the `r ≥ 0` construction
assertion; multiplying any vector by exactly 0 yields the zero vector in
CARTESIAN encoding `(x=0, y=0)`. -/
theorem c8_mul_encoding (x y r t k : ℝ) :
    (k ≠ 0 → Vector2D.mul (Vector2D.cart x y) k =
      some (Vector2D.cart (x * k) (y * k))) ∧
    (VecInv (Vector2D.polar r t) → 0 < k →
      Vector2D.mul (Vector2D.polar r t) k =
        some (Vector2D.polar (r * k) t)) ∧
    (0 < r → k < 0 → Vector2D.mul (Vector2D.polar r t) k = none) ∧
    Vector2D.mul (Vector2D.cart x y) 0 = some (Vector2D.cart 0 0) ∧
    Vector2D.mul (Vector2D.polar r t) 0 = some (Vector2D.cart 0 0) := by
  refine ⟨fun hk => by simp [Vector2D.mul, hk], fun hinv hk => ?_,
    fun hr hk => ?_, by simp [Vector2D.mul], by simp [Vector2D.mul]⟩
  · obtain ⟨hr0, ht0, ht1, hrt⟩ := hinv
    rw [show Vector2D.mul (Vector2D.polar r t) k =
        mkPolar (r * k) t by simp [Vector2D.mul, hk.ne.symm]]
    rw [mkPolar, if_pos (mul_nonneg hr0 hk.le)]
    by_cases h0 : r = 0
    · subst h0
      rw [if_neg (by simp), hrt rfl]
    · rw [if_pos (by positivity : r * k ≠ 0), normalize_t_eq_self ht0 ht1]
  · rw [show Vector2D.mul (Vector2D.polar r t) k =
        mkPolar (r * k) t by simp [Vector2D.mul, hk.ne]]
    rw [mkPolar, if_neg (by nlinarith)]

/-- Witness for C8 amended: `(1,2)·3 = (3,6)` in cartesian encoding and
`(r=2,t=0)·3 = (r=6,t=0)` in polar encoding. -/
theorem c8_witness :
    Vector2D.mul (Vector2D.cart 1 2) 3 = some (Vector2D.cart 3 6) ∧
    Vector2D.mul (Vector2D.polar 2 0) 3 = some (Vector2D.polar 6 0) := by
  have hinv : VecInv (Vector2D.polar 2 0) :=
    ⟨by norm_num, le_refl 0, two_pi_pos, fun h => rfl⟩
  constructor
  · have h := (c8_mul_encoding 1 2 2 0 3).1 (by norm_num)
    rw [h]
    norm_num
  · have h := (c8_mul_encoding 1 2 2 0 3).2.1 hinv (by norm_num)
    rw [h]
    norm_num

/-- C9: subtraction of two polar vectors sharing the same angle stays in
polar form — magnitude `r1 - r2` with the angle kept when `r2 ≤ r1`
(canonicalized to angle 0 when the magnitudes are equal, per the
constructor invariant), and magnitude `r2 - r1` with the opposite angle
`normalize_t (t + π)` when `r1 < r2` — so the resulting magnitude is never
negative; every other pair is converted to cartesian and combined
component-wise. -/
theorem c9_polar_sub (r1 r2 t t2 x1 y1 x2 y2 : ℝ) :
    (VecInv (Vector2D.polar r1 t) → r2 ≤ r1 →
      Vector2D.sub (Vector2D.polar r1 t) (Vector2D.polar r2 t) =
        some (Vector2D.polar (r1 - r2) (if r1 - r2 = 0 then 0 else t))) ∧
    (r1 < r2 →
      Vector2D.sub (Vector2D.polar r1 t) (Vector2D.polar r2 t) =
        some (Vector2D.polar (r2 - r1) (normalize_t (t + Real.pi)))) ∧
    (t ≠ t2 →
      Vector2D.sub (Vector2D.polar r1 t) (Vector2D.polar r2 t2) =
        some (Vector2D.cart (r1 * Real.cos t - r2 * Real.cos t2)
          (r1 * Real.sin t - r2 * Real.sin t2))) ∧
    Vector2D.sub (Vector2D.cart x1 y1) (Vector2D.cart x2 y2) =
      some (Vector2D.cart (x1 - x2) (y1 - y2)) ∧
    Vector2D.sub (Vector2D.cart x1 y1) (Vector2D.polar r2 t2) =
      some (Vector2D.cart (x1 - r2 * Real.cos t2) (y1 - r2 * Real.sin t2)) ∧
    Vector2D.sub (Vector2D.polar r1 t) (Vector2D.cart x2 y2) =
      some (Vector2D.cart (r1 * Real.cos t - x2) (r1 * Real.sin t - y2)) := by
  refine ⟨fun hinv hle => ?_, fun hlt => ?_, fun hne => ?_, rfl, rfl, rfl⟩
  · obtain ⟨hr0, ht0, ht1, hrt⟩ := hinv
    rw [show Vector2D.sub (Vector2D.polar r1 t) (Vector2D.polar r2 t) =
        mkPolar (r1 - r2) t by simp [Vector2D.sub, hle]]
    rw [mkPolar, if_pos (by linarith)]
    by_cases h0 : r1 - r2 = 0
    · rw [if_neg (by simpa using h0), if_pos h0]
    · rw [if_pos h0, if_neg h0, normalize_t_eq_self ht0 ht1]
  · rw [show Vector2D.sub (Vector2D.polar r1 t) (Vector2D.polar r2 t) =
        mkPolar (r2 - r1) (normalize_t (t + Real.pi)) by
          simp [Vector2D.sub, not_le.mpr hlt]]
    rw [mkPolar, if_pos (by linarith)]
    rw [if_pos (by intro hc; linarith), normalize_t_idem]
  · simp [Vector2D.sub, hne]

/-- Witness for C9: `(r=5, t=1) - (r=3, t=1) = (r=2, t=1)` stays polar
with the angle kept. -/
theorem c9_witness :
    Vector2D.sub (Vector2D.polar 5 1) (Vector2D.polar 3 1) =
      some (Vector2D.polar 2 1) := by
  have hinv : VecInv (Vector2D.polar 5 1) := by
    refine ⟨by norm_num, by norm_num, by nlinarith [Real.pi_gt_three],
      fun h => by norm_num at h⟩
  have h := (c9_polar_sub 5 3 1 0 0 0 0 0).1 hinv (by norm_num)
  rw [h]
  norm_num

/-- Counterexample to C5: supplying BOTH complete pairs is not a
construction violation — `Vector2D(x=1, y=2, r=3, t=4)` passes the assert
and returns the cartesian vector `(1, 2)`. -/
theorem c5_counterexample :
    vector_new (some 1) (some 2) (some 3) (some 4) ≠ none ∧
    vector_new (some 1) (some 2) (some 3) (some 4) =
      some (Vector2D.cart 1 2) := by
  exact ⟨by simp [vector_new], rfl⟩

/-- C5 amended: constructing a `Vector2D` requires at least one complete
pair among {x, y} and {r, t}: a complete cartesian pair yields a cartesian
vector (taking precedence even when the polar pair is also supplied), an
incomplete cartesian pair with a complete polar pair (r ≥ 0) yields a
polar vector, and construction fails when neither pair is complete. -/
theorem c5_vector_new_requires_pair (x y r t : ℝ) (r? t? x? y? : Option ℝ) :
    (vector_new (some x) (some y) r? t? = some (Vector2D.cart x y)) ∧
    (0 ≤ r → ¬(x?.isSome ∧ y?.isSome) →
      vector_new x? y? (some r) (some t) =
        some (Vector2D.polar r (if r ≠ 0 then normalize_t t else 0))) ∧
    (¬(x?.isSome ∧ y?.isSome) → ¬(r?.isSome ∧ t?.isSome) →
      vector_new x? y? r? t? = none) := by
  refine ⟨by cases r? <;> cases t? <;> rfl, fun hr hxy => ?_,
    fun hxy hrt => ?_⟩
  · cases x? with
    | some xv =>
        cases y? with
        | some yv => exact absurd ⟨rfl, rfl⟩ hxy
        | none =>
            show mkPolar r t = _
            rw [mkPolar, if_pos hr]
    | none =>
        cases y? <;>
          (show mkPolar r t = _; rw [mkPolar, if_pos hr])
  · cases x? with
    | some xv =>
        cases y? with
        | some yv => exact absurd ⟨rfl, rfl⟩ hxy
        | none =>
            cases r? with
            | some rv =>
                cases t? with
                | some tv => exact absurd ⟨rfl, rfl⟩ hrt
                | none => rfl
            | none => cases t? <;> rfl
    | none =>
        cases y? <;>
          (cases r? with
            | some rv =>
                cases t? with
                | some tv => exact absurd ⟨rfl, rfl⟩ hrt
                | none => rfl
            | none => cases t? <;> rfl)

/-- Witness for C5 amended: a lone cartesian pair yields `cart 1 2`, an
incomplete cartesian pair plus the polar pair `(2, 0)` yields
`polar 2 0`, and two incomplete pairs fail. -/
theorem c5_witness :
    vector_new (some 1) (some 2) none none = some (Vector2D.cart 1 2) ∧
    vector_new none (some 9) (some 2) (some 0) =
      some (Vector2D.polar 2 0) ∧
    vector_new none none none (some 1) = none := by
  refine ⟨(c5_vector_new_requires_pair 1 2 0 0 none none none none).1, ?_, ?_⟩
  · have h := (c5_vector_new_requires_pair 0 0 2 0 none none none
      (some 9)).2.1 (by norm_num) (by simp)
    rw [h, if_pos (by norm_num : (2:ℝ) ≠ 0)]
    rw [normalize_t_eq_self (le_refl 0) two_pi_pos]
  · exact (c5_vector_new_requires_pair 0 0 0 1 none (some 1) none
      none).2.2 (by simp) (by simp)
